import Mathlib

/-!
Verification of the multi-agent coordination core against its source.

The leaf-tool code is embedded from `v1_basic_agent.py` and
`v2_todo_agent.py`.  The messaging, registry and task-board layer
(`v8b_messaging.py`, `v8c_coordination.py`) is present in the repository
only through its tests, so those operations are modelled from the
specification text, as marked in their doc comments.  File state is made
explicit: a tool that reads and writes a file becomes a function from the
old content to the result string and the new content; the process state
of a manager object is threaded as an explicit value.
-/

/-- Substring test on character lists; embeds the Python operator
`needle in haystack` used by the tools. -/
def isSub (needle : List Char) : List Char → Bool
  | [] => needle.isEmpty
  | c :: rest => needle.isPrefixOf (c :: rest) || isSub needle rest

/-- Embeds Python `content.replace(old, new, 1)`: replace only the
leftmost occurrence of `old` (an empty `old` matches at the front). -/
def replaceFirst (old new : List Char) : List Char → List Char
  | [] => if old.isEmpty then new else []
  | c :: rest =>
      if old.isPrefixOf (c :: rest) then new ++ (c :: rest).drop old.length
      else c :: replaceFirst old new rest

/-- Embeds `run_edit` of `v1_basic_agent.py` (identical logic in
`v2_todo_agent.py`): given the current file content, return the tool
result string and the new file content. -/
def run_edit (path : String) (old_text new_text fileContent : String) :
    String × String :=
  if isSub old_text.toList fileContent.toList then
    ("Edited " ++ path,
     String.mk (replaceFirst old_text.toList new_text.toList fileContent.toList))
  else
    ("Error: Text not found in " ++ path, fileContent)

/-- Embeds Python `s.lower()` as applied to the ASCII field values the
agents use. -/
def pyLower (s : String) : String := String.mk (s.toList.map Char.toLower)

/-- Embeds Python `s.strip()`: drop whitespace from both ends. -/
def pyStrip (s : String) : String :=
  String.mk
    (((s.toList.dropWhile Char.isWhitespace).reverse.dropWhile
        Char.isWhitespace).reverse)

/-- Outcome of actually executing a shell command, abstracting
`subprocess.run`: normal completion with captured streams, expiry of the
120 second timeout, or some other raised exception. -/
inductive BashOutcome where
  | completed (stdout stderr : String)
  | timedOut
  | raised (message : String)

/-- The prefilter list `dangerous` of `run_bash` in `v1_basic_agent.py`. -/
def DANGEROUS : List String :=
  ["rm -rf /", "sudo", "shutdown", "reboot", "> /dev/"]

/-- Embeds `run_bash` of `v1_basic_agent.py`: the prefilter rejects
dangerous commands; otherwise the tool-result string is computed from
the execution outcome, with the 50000 character truncation, and every
failure is returned as a string rather than raised. -/
def run_bash (command : String) (outcome : BashOutcome) : String :=
  if DANGEROUS.any (fun d => isSub d.toList command.toList) then
    "Error: Dangerous command blocked"
  else
    match outcome with
    | BashOutcome.completed stdout stderr =>
        let output := pyStrip (stdout ++ stderr)
        if output = "" then "(no output)"
        else String.mk (output.toList.take 50000)
    | BashOutcome.timedOut => "Error: Command timed out (120s)"
    | BashOutcome.raised message => "Error: " ++ message

/-- The characters before the first colon, with `none` when no colon
occurs. -/
def untilColon : List Char → Option (List Char)
  | [] => none
  | c :: rest =>
      if c = ':' then some [] else (untilColon rest).map (fun l => c :: l)

/-- The `<kind>` of a tool-result string of the shape
`Error: <kind>: <detail>` demanded by section 7 of the spec; `none` when
the string does not have that shape. -/
def errorKind (s : String) : Option String :=
  if ("Error: ".toList).isPrefixOf s.toList then
    (untilColon (s.toList.drop 7)).map String.mk
  else none

/-- A todo item of `v2_todo_agent.py`: the dictionary with the fields
`content`, `status` and `activeForm`. -/
structure TodoItem where
  content : String
  status : String
  activeForm : String
deriving DecidableEq

/-- Embeds the validation loop of `TodoManager.update` in
`v2_todo_agent.py`: each item is normalised (content and activeForm
stripped, status lowercased) and checked, the in-progress items are
counted, and the first violation raises, returned here as
`Except.error` with the Python exception message. -/
def validateTodos : Nat → List TodoItem → Except String (List TodoItem × Nat)
  | _, [] => Except.ok ([], 0)
  | i, item :: rest =>
      let content := pyStrip item.content
      let status := pyLower item.status
      let activeForm := pyStrip item.activeForm
      if content = "" then
        Except.error ("Item " ++ toString i ++ ": content required")
      else if ¬ (status = "pending" ∨ status = "in_progress" ∨
                 status = "completed") then
        Except.error
          ("Item " ++ toString i ++ ": invalid status \x27" ++ status ++ "\x27")
      else if activeForm = "" then
        Except.error ("Item " ++ toString i ++ ": activeForm required")
      else
        match validateTodos (i + 1) rest with
        | Except.error e => Except.error e
        | Except.ok (v, c) =>
            Except.ok (⟨content, status, activeForm⟩ :: v,
              (if status = "in_progress" then 1 else 0) + c)

/-- Embeds `TodoManager.render` of `v2_todo_agent.py`. -/
def renderTodos (items : List TodoItem) : String :=
  if items.isEmpty then "No todos."
  else
    let lines := items.map fun item =>
      if item.status = "completed" then "[x] " ++ item.content
      else if item.status = "in_progress" then
        "[>] " ++ item.content ++ " <- " ++ item.activeForm
      else "[ ] " ++ item.content
    let completed := items.countP (fun t => t.status == "completed")
    String.intercalate "\n"
      (lines ++ ["\n(" ++ toString completed ++ "/" ++
        toString items.length ++ " completed)"])

/-- Embeds `TodoManager.update` of `v2_todo_agent.py` over an explicit
stored list: on success the stored list becomes the validated list and
the rendered view is returned; any violation leaves the update to the
caller as an error. -/
def TodoManager.update (items : List TodoItem) :
    Except String (List TodoItem × String) :=
  match validateTodos 0 items with
  | Except.error e => Except.error e
  | Except.ok (validated, inProgressCount) =>
      if validated.length > 20 then Except.error "Max 20 todos allowed"
      else if inProgressCount > 1 then
        Except.error "Only one task can be in_progress at a time"
      else Except.ok (validated, renderTodos validated)

/-- Embeds `run_todo` of `v2_todo_agent.py`: the exception raised by
`TodoManager.update` is caught and returned as an `Error:` string, and
only a successful update replaces the stored items. -/
def run_todo (stored items : List TodoItem) : String × List TodoItem :=
  match TodoManager.update items with
  | Except.ok (validated, rendered) => (rendered, validated)
  | Except.error e => ("Error: " ++ e, stored)

/-- The number of items carrying status `in_progress` after the
lowercasing performed by the validation loop. -/
def countInProgress (items : List TodoItem) : Nat :=
  items.countP (fun it => decide (pyLower it.status = "in_progress"))

/-- Stored todo list used by the concrete witnesses. -/
def storedW : List TodoItem := [⟨"Old", "pending", "old"⟩]

/-- Incoming todo list with two in-progress items, used by the concrete
witnesses. -/
def itemsW : List TodoItem :=
  [⟨"A", "in_progress", "doing A"⟩, ⟨"B", "in_progress", "doing B"⟩]

/-- Modelled from the spec: the `Message` record of section 3 of
`spec.md` (the implementing file `v8b_messaging.py` is absent from the
repository; only its tests are present).  The wall-clock `timestamp`
field is omitted as it carries no semantic weight in the claims. -/
structure Message where
  type : String
  sender : String
  recipient : String
  content : String
  requestId : Option String
deriving DecidableEq

/-- Modelled from the spec: the per-recipient state of section 4.3 — the
append-only message file (`msgs`, in append order) and whether the
adjacent `.lock` file currently exists (`locked`). -/
structure Inbox where
  msgs : List Message
  locked : Bool
deriving DecidableEq

/-- Modelled from the spec: the in-process state of the
`TeammateManager` of `v8b_messaging.py` / `v8c_coordination.py` — the
team registry (team name to ordered member names), the per-teammate
status, and the per-teammate inbox, both indexed by team and name. -/
structure TeammateManager where
  teams : List (String × List String)
  status : String → String → String
  inboxes : String → String → Inbox

/-- Point update of an inbox map at one `(team, name)` key. -/
def updInbox (f : String → String → Inbox) (team name : String) (ib : Inbox) :
    String → String → Inbox :=
  fun t n => if t = team ∧ n = name then ib else f t n

/-- Member list of a team in the registry, when the team exists. -/
def lookupTeam (tm : TeammateManager) (team : String) : Option (List String) :=
  (tm.teams.find? (fun p => p.1 == team)).map Prod.snd

/-- The copy of a broadcast delivered to one member, per the expansion
of section 4.6. -/
def bcastMsg (sender recipient content : String) : Message :=
  ⟨"broadcast", sender, recipient, content, none⟩

/-- One step of the broadcast fan-out: append the copy for member `m`
to the inbox of `m` under the recipient lock. -/
def bcastStep (team sender content : String) (acc : TeammateManager)
    (m : String) : TeammateManager :=
  ⟨acc.teams, acc.status,
   updInbox acc.inboxes team m
     ⟨(acc.inboxes team m).msgs ++ [bcastMsg sender m content],
      (acc.inboxes team m).locked⟩⟩

/-- Modelled from the spec: `send_message` of `v8b_messaging.py`
(sections 4.3 and 4.6).  A broadcast enumerates the non-sender members
at send time and appends one copy per member, succeeding even when the
set is empty and reporting the count reached; a non-broadcast message to
a recipient that is not in the registry fails with `RecipientNotFound`,
otherwise one message is appended to the recipient inbox. -/
def send_message (tm : TeammateManager)
    (recipient content msg_type sender team_name : String) :
    TeammateManager × String :=
  match lookupTeam tm team_name with
  | none => (tm, "Error: TeamNotFound: " ++ team_name)
  | some members =>
    if msg_type = "broadcast" then
      let targets := members.filter (fun m => m != sender)
      (targets.foldl (bcastStep team_name sender content) tm,
       "Broadcast reached " ++ toString targets.length ++ " teammates")
    else
      if members.contains recipient then
        (⟨tm.teams, tm.status,
          updInbox tm.inboxes team_name recipient
            ⟨(tm.inboxes team_name recipient).msgs ++
               [⟨msg_type, sender, recipient, content, none⟩],
             (tm.inboxes team_name recipient).locked⟩⟩,
         "Message sent to " ++ recipient)
      else (tm, "Error: RecipientNotFound: " ++ recipient)

/-- Modelled from the spec: `check_inbox` (drain) of `v8b_messaging.py`
(section 4.3).  The lock is tried non-blocking: when another holder has
it the drain returns the empty list at once and changes nothing;
otherwise all messages are returned in file order, the file is
truncated, and the lock is released. -/
def check_inbox (tm : TeammateManager) (name team_name : String) :
    List Message × TeammateManager :=
  let ib := tm.inboxes team_name name
  if ib.locked then ([], tm)
  else
    (ib.msgs,
     ⟨tm.teams, tm.status, updInbox tm.inboxes team_name name ⟨[], false⟩⟩)

/-- Modelled from the spec: the external party of scenario S6 releasing
the `.lock` file it created exclusively. -/
def release_lock (tm : TeammateManager) (name team_name : String) :
    TeammateManager :=
  ⟨tm.teams, tm.status,
   updInbox tm.inboxes team_name name
     ⟨(tm.inboxes team_name name).msgs, false⟩⟩

/-- The `shutdown_request` sent to member `m` during team deletion
(section 4.6), carrying the request id of the controller. -/
def shutdownMsg (request_id m : String) : Message :=
  ⟨"shutdown_request", "lead", m, "shutting down", some request_id⟩

/-- One per-member step of `delete_team`: append a `shutdown_request`
to the member inbox and set its status to `shutdown`. -/
def shutdownStep (team request_id : String) (acc : TeammateManager)
    (m : String) : TeammateManager :=
  ⟨acc.teams,
   fun t n => if t = team ∧ n = m then "shutdown" else acc.status t n,
   updInbox acc.inboxes team m
     ⟨(acc.inboxes team m).msgs ++ [shutdownMsg request_id m],
      (acc.inboxes team m).locked⟩⟩

/-- Modelled from the spec: `delete_team` of section 4.4 — for every
member, send a `shutdown_request` to its inbox and set its status to
`shutdown`, then remove the team entry from the registry; idempotent. -/
def delete_team (tm : TeammateManager) (team_name request_id : String) :
    TeammateManager × String :=
  match lookupTeam tm team_name with
  | none => (tm, "Team " ++ team_name ++ " deleted")
  | some members =>
      let tm2 := members.foldl (shutdownStep team_name request_id) tm
      (⟨tm2.teams.filter (fun p => p.1 != team_name), tm2.status, tm2.inboxes⟩,
       "Team " ++ team_name ++ " deleted")

/-- Modelled from the spec: the `Task` record of section 3 of `spec.md`
(the implementing file `v8c_coordination.py` is absent from the
repository; only its tests are present).  The timestamps are omitted as
they carry no semantic weight in the claims. -/
structure BoardTask where
  id : String
  subject : String
  status : String
  owner : Option String
  blocked_by : List String
  body : String
deriving DecidableEq

/-- The optional fields of a `TaskUpdate` call (section 4.2): fields
not provided are ignored. -/
structure UpdateArgs where
  status : Option String
  owner : Option String
  addBlockedBy : List String
  removeBlockedBy : List String

/-- Apply the provided fields of an update to one task. -/
def applyArgs (args : UpdateArgs) (t : BoardTask) : BoardTask :=
  let st := match args.status with | some s => s | none => t.status
  let ow := match args.owner with | some o => some o | none => t.owner
  let bb := t.blocked_by ++
    args.addBlockedBy.filter (fun b => !(t.blocked_by.contains b))
  ⟨t.id, t.subject, st, ow,
   bb.filter (fun b => !(args.removeBlockedBy.contains b)), t.body⟩

/-- A status is terminal when it is `completed` or `cancelled`. -/
def isTerminal (s : String) : Bool := s == "completed" || s == "cancelled"

/-- Modelled from the spec: `TaskManager.create` of section 4.2 —
assign the next integer id, append the pending task, return the id. -/
def TaskManager.create (board : List BoardTask) (subject body : String) :
    List BoardTask × String :=
  let id := toString (board.length + 1)
  (board ++ [⟨id, subject, "pending", none, [], body⟩], id)

/-- Modelled from the spec: `TaskManager.update` of section 4.2, one
serialized read-modify-write under the board lock.  The provided fields
are applied to the matching task; when the new status is terminal the
I2 unblock sweep of section 8 removes the id from the `blocked_by` of
every task on the board; an unknown id returns `none` and leaves the
board unchanged. -/
def TaskManager.update (board : List BoardTask) (id : String) (args : UpdateArgs) :
    List BoardTask × Option BoardTask :=
  match board.find? (fun t => t.id == id) with
  | none => (board, none)
  | some _ =>
    let b1 := board.map (fun t => if t.id == id then applyArgs args t else t)
    let terminal := match args.status with
      | some s => isTerminal s
      | none => false
    let b2 :=
      if terminal then
        b1.map (fun u =>
          ⟨u.id, u.subject, u.status, u.owner,
           u.blocked_by.filter (fun b => b != id), u.body⟩)
      else b1
    (b2, b2.find? (fun t => t.id == id))

/-- Modelled from the spec: `TaskManager.get` of section 4.2. -/
def TaskManager.get (board : List BoardTask) (id : String) : Option BoardTask :=
  board.find? (fun t => t.id == id)

/-- An update that only assigns an owner, as in scenario S3. -/
def ownerArgs (o : String) : UpdateArgs := ⟨none, some o, [], []⟩

/-- An update that only sets the status to `completed`. -/
def completedArgs : UpdateArgs := ⟨some "completed", none, [], []⟩

/-- A concrete ping message used by the witnesses. -/
def pingMsg : Message := ⟨"message", "lead", "alice", "ping", none⟩

/-- A concrete registry state used by the witnesses: team `t1` with
three members, team `solo` with a single member, one pending message in
the inbox of `alice`, no lock held. -/
def sampleTM : TeammateManager :=
  ⟨[("t1", ["lead", "alice", "bob"]), ("solo", ["lonely"])],
   fun _ _ => "active",
   fun t n => if t = "t1" ∧ n = "alice" then ⟨[pingMsg], false⟩ else ⟨[], false⟩⟩

/-- The same state with the inbox lock of `alice` held by another
party. -/
def lockedTM : TeammateManager :=
  ⟨[("t1", ["lead", "alice", "bob"]), ("solo", ["lonely"])],
   fun _ _ => "active",
   fun t n => if t = "t1" ∧ n = "alice" then ⟨[pingMsg], true⟩ else ⟨[], false⟩⟩

/-- A concrete board used by the witnesses: task 1 in progress, task 2
blocked by task 1. -/
def sampleBoard : List BoardTask :=
  [⟨"1", "First", "in_progress", some "alice", [], ""⟩,
   ⟨"2", "Dependent", "pending", none, ["1"], ""⟩]

theorem isPrefixOf_append_self (l t : List Char) :
    l.isPrefixOf (l ++ t) = true := by
  induction l with
  | nil => simp [List.isPrefixOf]
  | cons c cs ih => simp [List.isPrefixOf, ih]

theorem isPrefixOf_eq_true_iff (l₁ l₂ : List Char) :
    l₁.isPrefixOf l₂ = true ↔ ∃ t, l₂ = l₁ ++ t := by
  constructor
  · intro h
    induction l₁ generalizing l₂ with
    | nil => exact ⟨l₂, rfl⟩
    | cons c cs ih =>
      cases l₂ with
      | nil => simp [List.isPrefixOf] at h
      | cons d ds =>
        simp only [List.isPrefixOf, Bool.and_eq_true, beq_iff_eq] at h
        obtain ⟨t, ht⟩ := ih ds h.2
        exact ⟨t, by simp [h.1, ht]⟩
  · rintro ⟨t, rfl⟩
    exact isPrefixOf_append_self l₁ t

theorem replaceFirst_spec (old new content : List Char)
    (h : isSub old content = true) :
    ∃ a b, content = a ++ old ++ b ∧
      replaceFirst old new content = a ++ new ++ b ∧
      ∀ a' b', content = a' ++ old ++ b' → a.length ≤ a'.length := by
  induction content with
  | nil =>
    simp only [isSub, List.isEmpty_iff] at h
    subst h
    exact ⟨[], [], rfl, by simp [replaceFirst], fun a' b' _ => Nat.zero_le _⟩
  | cons c rest ih =>
    by_cases hp : old.isPrefixOf (c :: rest) = true
    · obtain ⟨t, ht⟩ := (isPrefixOf_eq_true_iff old (c :: rest)).1 hp
      refine ⟨[], t, by simpa using ht, ?_, fun a' b' _ => Nat.zero_le _⟩
      simp only [replaceFirst, if_pos hp, ht, List.nil_append]
      simp [List.drop_left]
    · have hs : isSub old rest = true := by
        simp only [isSub, Bool.or_eq_true] at h
        rcases h with h | h
        · exact absurd h hp
        · exact h
      obtain ⟨a, b, hab, hrep, hmin⟩ := ih hs
      refine ⟨c :: a, b, by simp [hab], ?_, ?_⟩
      · simp only [replaceFirst, if_neg hp, hrep]
        simp
      · intro a' b' hsplit
        cases a' with
        | nil =>
          exfalso
          apply hp
          simp only [List.nil_append] at hsplit
          exact (isPrefixOf_eq_true_iff old (c :: rest)).2 ⟨b', hsplit⟩
        | cons c' a'' =>
          have : rest = a'' ++ old ++ b' := by
            simpa using congrArg List.tail hsplit
          simpa using Nat.succ_le_succ (hmin a'' b' this)

/-- C10: `edit_file` replaces only the first occurrence of `old_text`:
when `old_text` occurs in the file, the result content is the original
with the leftmost occurrence (and only it) replaced by `new_text`, the
tail after that occurrence kept verbatim; when `old_text` does not
occur, the tool returns the `Error: Text not found` result and the file
content is unmodified. -/
theorem run_edit_first_occurrence (path old new content : String) :
    (isSub old.toList content.toList = true →
      (run_edit path old new content).1 = "Edited " ++ path ∧
      ∃ a b : List Char,
        content.toList = a ++ old.toList ++ b ∧
        (run_edit path old new content).2.toList = a ++ new.toList ++ b ∧
        ∀ a' b' : List Char,
          content.toList = a' ++ old.toList ++ b' → a.length ≤ a'.length) ∧
    (isSub old.toList content.toList = false →
      (run_edit path old new content).1 = "Error: Text not found in " ++ path ∧
      (run_edit path old new content).2 = content) := by
  constructor
  · intro h
    obtain ⟨a, b, hab, hrep, hmin⟩ :=
      replaceFirst_spec old.toList new.toList content.toList h
    refine ⟨?_, a, b, hab, ?_, hmin⟩
    · simp only [run_edit]
      rw [if_pos h]
    · simp only [run_edit]
      rw [if_pos h]
      exact hrep
  · intro h
    constructor
    · simp only [run_edit]
      rw [if_neg (ne_true_of_eq_false h)]
    · simp only [run_edit]
      rw [if_neg (ne_true_of_eq_false h)]

/-- C10 witness: on the file content `zabab` containing `ab` twice,
editing replaces the first occurrence, keeping the second, and editing
with an absent pattern reports the error and leaves the content alone. -/
theorem run_edit_first_occurrence_witness :
    (run_edit "f.txt" "ab" "X" "zabab").1 = "Edited f.txt" ∧
    (run_edit "f.txt" "ab" "X" "zabab").2 = "zXab" ∧
    (run_edit "f.txt" "qq" "X" "zabab").1 = "Error: Text not found in f.txt" ∧
    (run_edit "f.txt" "qq" "X" "zabab").2 = "zabab" := by
  have h1 := (run_edit_first_occurrence "f.txt" "ab" "X" "zabab").1 (by decide)
  have h2 := (run_edit_first_occurrence "f.txt" "qq" "X" "zabab").2 (by decide)
  exact ⟨h1.1, by decide, h2.1, h2.2⟩

theorem validateTodos_count (items : List TodoItem) :
    ∀ (i : Nat) (v : List TodoItem) (c : Nat),
      validateTodos i items = Except.ok (v, c) → c = countInProgress items := by
  induction items with
  | nil =>
    intro i v c h
    simp only [validateTodos, Except.ok.injEq, Prod.mk.injEq] at h
    simp [countInProgress, ← h.2]
  | cons item rest ih =>
    intro i v c h
    simp only [validateTodos] at h
    split at h
    · exact absurd h (by simp)
    · split at h
      · exact absurd h (by simp)
      · split at h
        · exact absurd h (by simp)
        · cases hv : validateTodos (i + 1) rest with
          | error e => rw [hv] at h; exact absurd h (by simp)
          | ok p =>
            obtain ⟨v', c'⟩ := p
            rw [hv] at h
            simp only [Except.ok.injEq, Prod.mk.injEq] at h
            have hc' := ih (i + 1) v' c' hv
            simp only [countInProgress, List.countP_cons]
            rw [← h.2, hc']
            simp only [countInProgress]
            split
            · simp only [decide_eq_true_eq]
              rw [if_pos (by assumption)]
              omega
            · rw [if_neg (by simp only [decide_eq_true_eq]; assumption)]
              omega

/-- C8: a `TodoWrite` update whose list holds more than one item with
status `in_progress` is rejected: `run_todo` returns an `Error:` result
string instead of the rendered list and the stored todo list is left
unchanged. -/
theorem run_todo_rejects_multiple_in_progress (stored items : List TodoItem)
    (h : 2 ≤ countInProgress items) :
    ∃ e, run_todo stored items = ("Error: " ++ e, stored) := by
  cases hv : validateTodos 0 items with
  | error e => exact ⟨e, by simp [run_todo, TodoManager.update, hv]⟩
  | ok p =>
    obtain ⟨v, c⟩ := p
    have hc : c = countInProgress items := validateTodos_count items 0 v c hv
    by_cases hlen : v.length > 20
    · exact ⟨"Max 20 todos allowed",
        by simp [run_todo, TodoManager.update, hv, hlen]⟩
    · have hcg : c > 1 := by omega
      exact ⟨"Only one task can be in_progress at a time",
        by simp [run_todo, TodoManager.update, hv, hlen, hcg]⟩

/-- C8 witness: a concrete list with two in-progress items is rejected
and the stored list survives the failed update. -/
theorem run_todo_rejects_multiple_in_progress_witness :
    2 ≤ countInProgress itemsW ∧ (run_todo storedW itemsW).2 = storedW := by
  refine ⟨by decide, ?_⟩
  obtain ⟨e, he⟩ := run_todo_rejects_multiple_in_progress storedW itemsW (by decide)
  rw [he]

/-- C7 counterexample: on timeout the bash tool of `v1_basic_agent.py`
returns the string `Error: Command timed out (120s)`, which is not of
the shape `Error: <kind>: <detail>` with kind `TimedOut`: it has no
second colon at all, so its parsed kind is not `TimedOut`. -/
theorem run_bash_timeout_kind_counterexample :
    run_bash "sleep 300" BashOutcome.timedOut =
      "Error: Command timed out (120s)" ∧
    errorKind (run_bash "sleep 300" BashOutcome.timedOut) ≠ some "TimedOut" := by
  decide

/-- C7 amended: for every command passing the danger prefilter whose
execution exceeds the 120 second timeout, the bash tool returns,
without raising, the fixed tool-result string
`Error: Command timed out (120s)`, which begins with `Error: ` but does
not carry the kind `TimedOut`. -/
theorem run_bash_timeout_error_string (command : String)
    (h : DANGEROUS.any (fun d => isSub d.toList command.toList) = false) :
    run_bash command BashOutcome.timedOut = "Error: Command timed out (120s)" ∧
    ("Error: ".toList).isPrefixOf
      (run_bash command BashOutcome.timedOut).toList = true := by
  have h1 : run_bash command BashOutcome.timedOut =
      "Error: Command timed out (120s)" := by
    simp only [run_bash]
    rw [if_neg (ne_true_of_eq_false h)]
  exact ⟨h1, by rw [h1]; decide⟩

/-- C7 amended witness: the concrete command `sleep 300` passes the
prefilter and its timeout produces the fixed error string. -/
theorem run_bash_timeout_error_string_witness :
    run_bash "sleep 300" BashOutcome.timedOut =
      "Error: Command timed out (120s)" :=
  (run_bash_timeout_error_string "sleep 300" (by decide)).1

theorem bcastFold (team sender content : String) :
    ∀ (ns : List String), ns.Nodup → ∀ (tm : TeammateManager),
      (∀ m ∈ ns,
        (ns.foldl (bcastStep team sender content) tm).inboxes team m =
          ⟨(tm.inboxes team m).msgs ++ [bcastMsg sender m content],
           (tm.inboxes team m).locked⟩) ∧
      (∀ t n, (t = team → n ∉ ns) →
        (ns.foldl (bcastStep team sender content) tm).inboxes t n =
          tm.inboxes t n) := by
  intro ns
  induction ns with
  | nil =>
    intro _ tm
    exact ⟨by simp, fun t n _ => rfl⟩
  | cons m rest ih =>
    intro hnd tm
    rw [List.nodup_cons] at hnd
    obtain ⟨hm, hrest⟩ := hnd
    have hfold : (m :: rest).foldl (bcastStep team sender content) tm
        = rest.foldl (bcastStep team sender content)
            (bcastStep team sender content tm m) := rfl
    have ihtm1 := ih hrest (bcastStep team sender content tm m)
    constructor
    · intro x hx
      rcases List.mem_cons.1 hx with hxm | hxrest
      · subst hxm
        rw [hfold, ihtm1.2 team x (fun _ => hm)]
        simp [bcastStep, updInbox]
      · have hxne : x ≠ m := fun h => hm (h ▸ hxrest)
        rw [hfold, ihtm1.1 x hxrest]
        simp [bcastStep, updInbox, hxne]
    · intro t n hne
      have hn : t = team → n ∉ rest :=
        fun ht hc => (hne ht) (List.mem_cons_of_mem _ hc)
      have hnm : ¬ (t = team ∧ n = m) := by
        rintro ⟨ht, hnmEq⟩
        exact hne ht (hnmEq ▸ List.mem_cons_self _ _)
      rw [hfold, ihtm1.2 t n hn]
      simp [bcastStep, updInbox, hnm]

/-- C1: a broadcast by sender `S` in team `T` appends exactly one copy
to the inbox of every member of `T` other than `S`, leaves the inbox of
`S` untouched, and a subsequent drain of the inbox of `S` returns only
what was there before the send — no copy of the broadcast. -/
theorem broadcast_excludes_sender
    (tm : TeammateManager) (T S content : String) (ms : List String)
    (hT : lookupTeam tm T = some ms) (hnd : ms.Nodup) :
    (∀ m ∈ ms, m ≠ S →
      ((send_message tm "" content "broadcast" S T).1.inboxes T m).msgs =
        (tm.inboxes T m).msgs ++ [bcastMsg S m content]) ∧
    (send_message tm "" content "broadcast" S T).1.inboxes T S =
      tm.inboxes T S ∧
    ((tm.inboxes T S).locked = false →
      (check_inbox (send_message tm "" content "broadcast" S T).1 S T).1 =
        (tm.inboxes T S).msgs) := by
  have hsend : send_message tm "" content "broadcast" S T =
      ((ms.filter (fun m => m != S)).foldl (bcastStep T S content) tm,
       "Broadcast reached " ++
         toString (ms.filter (fun m => m != S)).length ++ " teammates") := by
    simp [send_message, hT]
  have hndt : (ms.filter (fun m => m != S)).Nodup := hnd.filter _
  have hfold := bcastFold T S content (ms.filter (fun m => m != S)) hndt tm
  have hSnot : S ∉ ms.filter (fun m => m != S) := by
    simp [List.mem_filter]
  have hS : (send_message tm "" content "broadcast" S T).1.inboxes T S =
      tm.inboxes T S := by
    rw [hsend]
    exact hfold.2 T S (fun _ => hSnot)
  refine ⟨?_, hS, ?_⟩
  · intro m hm hmS
    have hmt : m ∈ ms.filter (fun m => m != S) := by
      simp [List.mem_filter, hm, hmS]
    rw [hsend]
    show ((((ms.filter (fun m => m != S)).foldl
        (bcastStep T S content) tm)).inboxes T m).msgs = _
    rw [hfold.1 m hmt]
  · intro hlock
    simp [check_inbox, hS, hlock]

/-- C2: a drain performed while the inbox lock is free returns every
message of the inbox file in append order, truncates the file, keeps
the lock free, and an immediately following drain returns the empty
list. -/
theorem check_inbox_of_empty (w : TeammateManager) (name T : String)
    (h : w.inboxes T name = ⟨[], false⟩) : (check_inbox w name T).1 = [] := by
  simp [check_inbox, h]

theorem check_inbox_drains_and_truncates (tm : TeammateManager)
    (name T : String) (hlock : (tm.inboxes T name).locked = false) :
    (check_inbox tm name T).1 = (tm.inboxes T name).msgs ∧
    ((check_inbox tm name T).2.inboxes T name).msgs = [] ∧
    ((check_inbox tm name T).2.inboxes T name).locked = false ∧
    (check_inbox (check_inbox tm name T).2 name T).1 = [] := by
  have h2 : (check_inbox tm name T).2.inboxes T name = ⟨[], false⟩ := by
    simp [check_inbox, hlock, updInbox]
  exact ⟨by simp [check_inbox, hlock], by rw [h2], by rw [h2],
    check_inbox_of_empty _ name T h2⟩

/-- C3: while another holder has the `.lock` file, a drain returns the
empty list at once and changes nothing at all; once the lock is
released, the next drain returns each previously enqueued message
exactly once (it yields exactly the pending list and truncates the
file). -/
theorem check_inbox_lock_contention (tm : TeammateManager)
    (name T : String) (hlock : (tm.inboxes T name).locked = true) :
    check_inbox tm name T = ([], tm) ∧
    (check_inbox (release_lock tm name T) name T).1 =
      (tm.inboxes T name).msgs ∧
    ((check_inbox (release_lock tm name T) name T).2.inboxes T name).msgs =
      [] := by
  have hrel : (release_lock tm name T).inboxes T name =
      ⟨(tm.inboxes T name).msgs, false⟩ := by
    simp [release_lock, updInbox]
  refine ⟨by simp [check_inbox, hlock], by simp [check_inbox, hrel], ?_⟩
  simp [check_inbox, hrel, updInbox]

theorem shutdownFold (team rid : String) :
    ∀ (ns : List String), ns.Nodup → ∀ (tm : TeammateManager),
      (∀ m ∈ ns,
        (ns.foldl (shutdownStep team rid) tm).status team m = "shutdown" ∧
        (ns.foldl (shutdownStep team rid) tm).inboxes team m =
          ⟨(tm.inboxes team m).msgs ++ [shutdownMsg rid m],
           (tm.inboxes team m).locked⟩) ∧
      (∀ t n, (t = team → n ∉ ns) →
        (ns.foldl (shutdownStep team rid) tm).status t n = tm.status t n ∧
        (ns.foldl (shutdownStep team rid) tm).inboxes t n =
          tm.inboxes t n) := by
  intro ns
  induction ns with
  | nil =>
    intro _ tm
    exact ⟨by simp, fun t n _ => ⟨rfl, rfl⟩⟩
  | cons m rest ih =>
    intro hnd tm
    rw [List.nodup_cons] at hnd
    obtain ⟨hm, hrest⟩ := hnd
    have hfold : (m :: rest).foldl (shutdownStep team rid) tm
        = rest.foldl (shutdownStep team rid) (shutdownStep team rid tm m) := rfl
    have ihtm1 := ih hrest (shutdownStep team rid tm m)
    constructor
    · intro x hx
      rcases List.mem_cons.1 hx with hxm | hxrest
      · subst hxm
        have hout := ihtm1.2 team x (fun _ => hm)
        rw [hfold]
        rw [hout.1, hout.2]
        constructor
        · simp [shutdownStep]
        · simp [shutdownStep, updInbox]
      · have hxne : x ≠ m := fun h => hm (h ▸ hxrest)
        have hin := ihtm1.1 x hxrest
        rw [hfold]
        rw [hin.1, hin.2]  
        constructor
        · rfl
        · simp [shutdownStep, updInbox, hxne]
    · intro t n hne
      have hn : t = team → n ∉ rest :=
        fun ht hc => (hne ht) (List.mem_cons_of_mem _ hc)
      have hnm : ¬ (t = team ∧ n = m) := by
        rintro ⟨ht, hnmEq⟩
        exact hne ht (hnmEq ▸ List.mem_cons_self _ _)
      have hout := ihtm1.2 t n hn
      rw [hfold, hout.1, hout.2]
      constructor
      · simp [shutdownStep, hnm]
      · simp [shutdownStep, updInbox, hnm]

/-- C5: after `delete_team` returns, every former member of the team
has status `shutdown` and its inbox file contains, pre-drain, a message
of type `shutdown_request`; this holds for any number of members. -/
theorem delete_team_finalizes (tm : TeammateManager) (T rid : String)
    (ms : List String) (hT : lookupTeam tm T = some ms) (hnd : ms.Nodup) :
    ∀ m ∈ ms,
      (delete_team tm T rid).1.status T m = "shutdown" ∧
      ∃ msg ∈ ((delete_team tm T rid).1.inboxes T m).msgs,
        msg.type = "shutdown_request" := by
  have hdel : delete_team tm T rid =
      (⟨(ms.foldl (shutdownStep T rid) tm).teams.filter (fun p => p.1 != T),
        (ms.foldl (shutdownStep T rid) tm).status,
        (ms.foldl (shutdownStep T rid) tm).inboxes⟩,
       "Team " ++ T ++ " deleted") := by
    simp [delete_team, hT]
  intro m hm
  have h := (shutdownFold T rid ms hnd tm).1 m hm
  rw [hdel]
  refine ⟨h.1, ?_⟩
  show ∃ msg ∈ ((ms.foldl (shutdownStep T rid) tm).inboxes T m).msgs,
    msg.type = "shutdown_request"
  rw [h.2]
  exact ⟨shutdownMsg rid m, by simp, rfl⟩

/-- C6: a non-broadcast send fails with `RecipientNotFound` exactly
when the recipient is not among the registered members of the team,
and a broadcast whose team has zero non-sender members succeeds with
the result message reporting that it reached 0 teammates. -/
theorem send_message_recipient_validation
    (tm : TeammateManager) (recipient content msg_type sender T : String)
    (ms : List String) (hT : lookupTeam tm T = some ms) :
    (msg_type ≠ "broadcast" →
      ((send_message tm recipient content msg_type sender T).2 =
          "Error: RecipientNotFound: " ++ recipient ↔
        ms.contains recipient = false)) ∧
    (msg_type = "broadcast" → ms.filter (fun m => m != sender) = [] →
      send_message tm recipient content msg_type sender T =
        (tm, "Broadcast reached 0 teammates")) := by
  constructor
  · intro hmt
    by_cases hc : ms.contains recipient = true
    · have hmem : recipient ∈ ms := by simpa using hc
      have hres : (send_message tm recipient content msg_type sender T).2 =
          "Message sent to " ++ recipient := by
        simp [send_message, hT, hmt, hmem]
      rw [hres, hc]
      constructor
      · intro hEq
        exfalso
        have hlen := congrArg String.length hEq
        simp [String.length_append] at hlen
        exact absurd hlen (by decide)
      · intro hf
        exact Bool.noConfusion hf
    · have hc2 : ms.contains recipient = false := by
        simpa using hc
      have hmem : recipient ∉ ms := by simpa using hc
      have hres : (send_message tm recipient content msg_type sender T).2 =
          "Error: RecipientNotFound: " ++ recipient := by
        simp [send_message, hT, hmt, hmem]
      rw [hres, hc2]
      simp
  · intro hmt hfilt
    subst hmt
    have hsend : send_message tm recipient content "broadcast" sender T =
        ((ms.filter (fun m => m != sender)).foldl (bcastStep T sender content) tm,
         "Broadcast reached " ++
           toString (ms.filter (fun m => m != sender)).length ++
           " teammates") := by
      simp [send_message, hT]
    rw [hsend, hfilt]
    rfl

/-- C4: an update that moves a task on the board into a terminal status
(`completed` or `cancelled`) leaves no task whose `blocked_by` still
holds that id — the I2 unblock sweep runs across the whole board. -/
theorem task_update_terminal_unblocks (board : List BoardTask) (id : String)
    (args : UpdateArgs) (t : BoardTask) (ht : t ∈ board) (hid : t.id = id)
    (hst : args.status = some "completed" ∨ args.status = some "cancelled") :
    ∀ u ∈ (TaskManager.update board id args).1, id ∉ u.blocked_by := by
  intro u hu
  have hfs : (board.find? (fun t => t.id == id)).isSome :=
    List.find?_isSome.2 ⟨t, ht, by simp [hid]⟩
  obtain ⟨x, hx⟩ := Option.isSome_iff_exists.1 hfs
  have hterm : (match args.status with
      | some s => isTerminal s
      | none => false) = true := by
    rcases hst with h | h <;> simp [h, isTerminal]
  simp only [TaskManager.update, hx, hterm, if_true] at hu
  obtain ⟨v, _, rfl⟩ := List.mem_map.1 hu
  intro hmem
  rcases List.mem_filter.1 hmem with ⟨_, hbeq⟩
  simp at hbeq

/-- C4 witness: completing the blocking task on the concrete board
removes its id from the dependent task. -/
theorem task_update_terminal_unblocks_witness :
    (⟨"2", "Dependent", "pending", none, ["1"], ""⟩ : BoardTask) ∈ sampleBoard ∧
    "1" ∉ (⟨"2", "Dependent", "pending", none, [], ""⟩ : BoardTask).blocked_by := by
  refine ⟨by decide, ?_⟩
  have h := task_update_terminal_unblocks sampleBoard "1" completedArgs
    ⟨"1", "First", "in_progress", some "alice", [], ""⟩ (by decide) rfl
    (Or.inl rfl)
  exact h ⟨"2", "Dependent", "pending", none, [], ""⟩ (by decide)

theorem find?_map_applyArgs (board : List BoardTask) (id : String)
    (args : UpdateArgs) :
    (board.map (fun t => if t.id == id then applyArgs args t else t)).find?
        (fun t => t.id == id) =
      (board.find? (fun t => t.id == id)).map (applyArgs args) := by
  induction board with
  | nil => rfl
  | cons t rest ih =>
    by_cases h : t.id = id
    · have hb : (t.id == id) = true := by simp [h]
      have hb2 : ((applyArgs args t).id == id) = true := by simp [applyArgs, h]
      simp [List.find?, hb, hb2]
    · have hb : (t.id == id) = false := by simp [h]
      simp only [List.map_cons]
      rw [if_neg (ne_true_of_eq_false hb)]
      simp only [List.find?, hb]
      exact ih

theorem owner_update_get (board : List BoardTask) (id o : String)
    (h : ∃ x ∈ board, x.id = id) :
    ∃ u, TaskManager.get (TaskManager.update board id (ownerArgs o)).1 id =
        some u ∧ u.owner = some o ∧
      ∃ x ∈ (TaskManager.update board id (ownerArgs o)).1, x.id = id := by
  obtain ⟨x, hx, hxid⟩ := h
  have hfs : (board.find? (fun t => t.id == id)).isSome :=
    List.find?_isSome.2 ⟨x, hx, by simp [hxid]⟩
  obtain ⟨t0, ht0⟩ := Option.isSome_iff_exists.1 hfs
  have hupd : (TaskManager.update board id (ownerArgs o)).1 =
      board.map (fun t => if t.id == id then applyArgs (ownerArgs o) t else t) := by
    simp [TaskManager.update, ht0, ownerArgs]
  have hget : TaskManager.get (TaskManager.update board id (ownerArgs o)).1 id =
      some (applyArgs (ownerArgs o) t0) := by
    simp only [TaskManager.get]
    rw [hupd, find?_map_applyArgs, ht0]
    rfl
  refine ⟨applyArgs (ownerArgs o) t0, hget, by simp [applyArgs, ownerArgs], ?_⟩
  refine ⟨applyArgs (ownerArgs o) t0, ?_, ?_⟩
  · exact List.mem_of_find?_eq_some hget
  · have := List.find?_some hget
    simpa using this

/-- C9: the board lock serializes the two conflicting owner updates, so
their effect is one of the two serial orders; in either order both
updates complete (they are total functions on the board value, which by
construction stays a well-formed task list), and the task ends owned by
the last writer — in particular its owner is `X` or `Y`. -/
theorem task_owner_race_last_writer_wins (board : List BoardTask)
    (id X Y : String) (t : BoardTask) (ht : t ∈ board) (hid : t.id = id) :
    (∃ u, TaskManager.get
        (TaskManager.update (TaskManager.update board id (ownerArgs X)).1 id
          (ownerArgs Y)).1 id = some u ∧ u.owner = some Y ∧
        (u.owner = some X ∨ u.owner = some Y)) ∧
    (∃ u, TaskManager.get
        (TaskManager.update (TaskManager.update board id (ownerArgs Y)).1 id
          (ownerArgs X)).1 id = some u ∧ u.owner = some X ∧
        (u.owner = some X ∨ u.owner = some Y)) := by
  have h0 : ∃ x ∈ board, x.id = id := ⟨t, ht, hid⟩
  constructor
  · obtain ⟨u1, _, _, hex1⟩ := owner_update_get board id X h0
    obtain ⟨u2, hget2, hown2, _⟩ :=
      owner_update_get (TaskManager.update board id (ownerArgs X)).1 id Y hex1
    exact ⟨u2, hget2, hown2, Or.inr hown2⟩
  · obtain ⟨u1, _, _, hex1⟩ := owner_update_get board id Y h0
    obtain ⟨u2, hget2, hown2, _⟩ :=
      owner_update_get (TaskManager.update board id (ownerArgs Y)).1 id X hex1
    exact ⟨u2, hget2, hown2, Or.inl hown2⟩

/-- C1 witness: broadcasting from `lead` in the concrete three-member
team delivers one copy to `bob`, leaves the inbox of `lead` untouched,
and a drain of `lead` returns only the preexisting messages. -/
theorem broadcast_excludes_sender_witness :
    ((send_message sampleTM "" "Ann" "broadcast" "lead" "t1").1.inboxes
        "t1" "bob").msgs = [bcastMsg "lead" "bob" "Ann"] ∧
    (send_message sampleTM "" "Ann" "broadcast" "lead" "t1").1.inboxes
        "t1" "lead" = sampleTM.inboxes "t1" "lead" ∧
    (check_inbox (send_message sampleTM "" "Ann" "broadcast" "lead" "t1").1
        "lead" "t1").1 = [] := by
  have h := broadcast_excludes_sender sampleTM "t1" "lead" "Ann"
    ["lead", "alice", "bob"] (by decide) (by decide)
  refine ⟨?_, h.2.1, ?_⟩
  · rw [h.1 "bob" (by decide) (by decide)]
    decide
  · rw [h.2.2 (by decide)]
    decide

/-- C2 witness: draining the concrete unlocked inbox of `alice` returns
its one pending message, empties it, and a second drain returns the
empty list. -/
theorem check_inbox_drains_and_truncates_witness :
    (check_inbox sampleTM "alice" "t1").1 = [pingMsg] ∧
    ((check_inbox sampleTM "alice" "t1").2.inboxes "t1" "alice").msgs = [] ∧
    (check_inbox (check_inbox sampleTM "alice" "t1").2 "alice" "t1").1 = [] := by
  have h := check_inbox_drains_and_truncates sampleTM "alice" "t1" (by decide)
  exact ⟨h.1.trans (by decide), h.2.1, h.2.2.2⟩

/-- C3 witness: with the lock of the inbox of `alice` held externally a
drain returns the empty list and changes nothing; after release the
next drain returns the pending message exactly once. -/
theorem check_inbox_lock_contention_witness :
    check_inbox lockedTM "alice" "t1" = ([], lockedTM) ∧
    (check_inbox (release_lock lockedTM "alice" "t1") "alice" "t1").1 =
      [pingMsg] ∧
    ((check_inbox (release_lock lockedTM "alice" "t1") "alice"
        "t1").2.inboxes "t1" "alice").msgs = [] := by
  have h := check_inbox_lock_contention lockedTM "alice" "t1" (by decide)
  exact ⟨h.1, h.2.1.trans (by decide), h.2.2⟩

/-- C5 witness: deleting the concrete team `t1` flips the status of
`alice` and `bob` to `shutdown` and leaves a `shutdown_request` in each
of their inboxes. -/
theorem delete_team_finalizes_witness :
    (delete_team sampleTM "t1" "rid1").1.status "t1" "alice" = "shutdown" ∧
    (delete_team sampleTM "t1" "rid1").1.status "t1" "bob" = "shutdown" ∧
    ((delete_team sampleTM "t1" "rid1").1.inboxes "t1" "bob").msgs.any
      (fun m => m.type == "shutdown_request") = true := by
  have h := delete_team_finalizes sampleTM "t1" "rid1"
    ["lead", "alice", "bob"] (by decide) (by decide)
  exact ⟨(h "alice" (by decide)).1, (h "bob" (by decide)).1, by decide⟩

/-- C6 witness: a non-broadcast message to the unknown recipient
`ghost` fails with `RecipientNotFound`, while a broadcast in the
single-member team `solo` succeeds, reaching 0 teammates. -/
theorem send_message_recipient_validation_witness :
    (send_message sampleTM "ghost" "hi" "message" "lead" "t1").2 =
      "Error: RecipientNotFound: ghost" ∧
    send_message sampleTM "" "x" "broadcast" "lonely" "solo" =
      (sampleTM, "Broadcast reached 0 teammates") := by
  constructor
  · exact ((send_message_recipient_validation sampleTM "ghost" "hi" "message"
      "lead" "t1" ["lead", "alice", "bob"] (by decide)).1 (by decide)).2
      (by decide)
  · exact (send_message_recipient_validation sampleTM "" "x" "broadcast"
      "lonely" "solo" ["lonely"] (by decide)).2 rfl (by decide)

/-- C9 witness: on the concrete board the two serializations of the
conflicting claims of task 1 both succeed, and each leaves the task
owned by the last writer. -/
theorem task_owner_race_last_writer_wins_witness :
    (TaskManager.get
        (TaskManager.update (TaskManager.update sampleBoard "1"
          (ownerArgs "alice")).1 "1" (ownerArgs "bob")).1 "1").map
      (fun u => u.owner) = some (some "bob") ∧
    (TaskManager.get
        (TaskManager.update (TaskManager.update sampleBoard "1"
          (ownerArgs "bob")).1 "1" (ownerArgs "alice")).1 "1").map
      (fun u => u.owner) = some (some "alice") := by
  have h := task_owner_race_last_writer_wins sampleBoard "1" "alice" "bob"
    ⟨"1", "First", "in_progress", some "alice", [], ""⟩ (by decide) rfl
  obtain ⟨⟨u1, hget1, hown1, _⟩, ⟨u2, hget2, hown2, _⟩⟩ := h
  constructor
  · rw [hget1]
    simp [hown1]
  · rw [hget2]
    simp [hown2]
